import Mathlib

/-!
Verification of the Dontpullup recovery utilities.

The Python sources are shallowly embedded as Lean definitions:

* `merge_files.py` — the two-pass directory merge (`merge_files` below).
  A directory tree is a finite map from relative path to a file
  (content plus integer modification time); `shutil.copy2` preserves
  both content and mtime, so copying is `setFile` with the source's
  record.  `glob("**/*.swift")` is the `swiftFiles` filter.
* `compare_code_files.py` — inventory and classification
  (`collect_swift_files`, `build_content_groups`,
  `build_conflict_groups`, and the CSV row builders).  Python `dict`
  grouping preserves insertion order, embedded as `pyGroupBy`;
  Python's stable `sorted` is embedded as `List.insertionSort`.
* `extract_files.py` / `extract_file.py` — snapshot recovery
  (`extract_swift_from_json`, `splash_recover`).  Parsed JSON is the
  inductive `Json`; a caught Python exception is `Option.none`.
-/

/-- Association-list lookup; embeds Python `dict` lookup (keys are kept
unique by `setFile`/`addToGroup`, matching `dict` semantics). -/
def alookup {κ β : Type} [DecidableEq κ] : List (κ × β) → κ → Option β
  | [], _ => none
  | (k, v) :: t, q => if k = q then some v else alookup t q

theorem alookup_nil {κ β : Type} [DecidableEq κ] (q : κ) :
    alookup ([] : List (κ × β)) q = none := rfl

theorem alookup_cons {κ β : Type} [DecidableEq κ] (k : κ) (v : β)
    (t : List (κ × β)) (q : κ) :
    alookup ((k, v) :: t) q = if k = q then some v else alookup t q := rfl

theorem alookup_eq_none_iff {κ β : Type} [DecidableEq κ]
    (t : List (κ × β)) (q : κ) :
    alookup t q = none ↔ q ∉ t.map Prod.fst := by
  induction t with
  | nil => simp [alookup]
  | cons kv t ih =>
    obtain ⟨k, v⟩ := kv
    by_cases h : k = q
    · subst h
      simp [alookup]
    · simp only [alookup, if_neg h, List.map_cons, List.mem_cons, ih]
      constructor
      · intro hq hc
        rcases hc with hc | hc
        · exact h hc.symm
        · exact hq hc
      · intro hq hc
        exact hq (Or.inr hc)

theorem alookup_isSome_of_mem_keys {κ β : Type} [DecidableEq κ]
    {t : List (κ × β)} {q : κ} (h : q ∈ t.map Prod.fst) :
    ∃ v, alookup t q = some v := by
  cases hl : alookup t q with
  | none => exact absurd ((alookup_eq_none_iff t q).mp hl) (by simp [h])
  | some v => exact ⟨v, rfl⟩

theorem mem_of_alookup_eq_some {κ β : Type} [DecidableEq κ]
    {t : List (κ × β)} {q : κ} {v : β} (h : alookup t q = some v) :
    (q, v) ∈ t := by
  induction t with
  | nil => simp [alookup] at h
  | cons kv t ih =>
    obtain ⟨k, w⟩ := kv
    by_cases hk : k = q
    · subst hk
      simp [alookup] at h
      simp [h]
    · simp [alookup, hk] at h
      simp [ih h]

theorem alookup_eq_some_of_mem_of_nodup {κ β : Type} [DecidableEq κ]
    {t : List (κ × β)} {q : κ} {v : β}
    (hnd : (t.map Prod.fst).Nodup) (h : (q, v) ∈ t) :
    alookup t q = some v := by
  induction t with
  | nil => simp at h
  | cons kv t ih =>
    obtain ⟨k, w⟩ := kv
    simp only [List.map_cons, List.nodup_cons] at hnd
    rcases List.mem_cons.mp h with h1 | h2
    · injection h1 with hq hv
      subst hq
      subst hv
      simp [alookup]
    · have hkq : k ≠ q := by
        intro he
        subst he
        exact hnd.1 (List.mem_map.mpr ⟨(k, v), h2, rfl⟩)
      simp [alookup, hkq, ih hnd.2 h2]

/-! ## Files and trees (model of an on-disk directory tree) -/

/-- A file on disk: its byte content and its modification time
(`os.path.getmtime`; `shutil.copy2` preserves it). -/
structure SFile where
  content : String
  mtime : Int
deriving DecidableEq, Repr

/-- A directory tree as a finite map from relative path to file. -/
abbrev FsTree := List (String × SFile)

/-- Reading the file at a relative path (`none` = no such file). -/
def getFile (t : FsTree) (p : String) : Option SFile := alookup t p

/-- Writing a file at a relative path: `shutil.copy2(src, dst)` with
`dst = merged_dir/p`, replacing any existing file, creating it
otherwise.  Content and mtime both come from the source record. -/
def setFile : FsTree → String → SFile → FsTree
  | [], p, f => [(p, f)]
  | (q, g) :: t, p, f => if q = p then (p, f) :: t else (q, g) :: setFile t p f

theorem getFile_setFile_same (t : FsTree) (p : String) (f : SFile) :
    getFile (setFile t p f) p = some f := by
  induction t with
  | nil => simp [setFile, getFile, alookup]
  | cons qg t ih =>
    obtain ⟨q, g⟩ := qg
    by_cases h : q = p
    · simp [setFile, h, getFile, alookup]
    · simpa [setFile, h, getFile, alookup] using ih

theorem getFile_setFile_ne (t : FsTree) {p q : String} (f : SFile)
    (h : q ≠ p) : getFile (setFile t p f) q = getFile t q := by
  induction t with
  | nil => simp [setFile, getFile, alookup, Ne.symm h]
  | cons rg t ih =>
    obtain ⟨r, g⟩ := rg
    by_cases hr : r = p
    · subst hr
      simp [setFile, getFile, alookup, Ne.symm h]
    · simp only [setFile, if_neg hr]
      by_cases hq : r = q
      · simp [getFile, alookup, hq]
      · simpa [getFile, alookup, hq] using ih

/-! ## The merge (`merge_files.py`) -/

/-- List-based test that `s` ends with `suff` (model of Python
`str.endswith` / the `*.swift` glob pattern). -/
def listStartsWith {α : Type} [DecidableEq α] : List α → List α → Bool
  | _, [] => true
  | [], _ :: _ => false
  | a :: as, b :: bs => a = b && listStartsWith as bs

def strEndsWith (s suff : String) : Bool :=
  listStartsWith s.data.reverse suff.data.reverse

def strStartsWith (s pre : String) : Bool :=
  listStartsWith s.data pre.data

/-- A path matched by `glob(os.path.join(root, "**", "*.swift"))`. -/
def isSwift (p : String) : Bool := strEndsWith p ".swift"

/-- The Swift files of a source tree, i.e. what the recursive glob
returns for that root. -/
def swiftFiles (t : FsTree) : FsTree := t.filter (fun pf => isSwift pf.1)

/-- One audit line printed by `merge_files` (`Copied:` / `Updated:` /
`Kept:` / `Added:`). -/
inductive MergeAction where
  | copiedFromMusic
  | updatedFromRecovery
  | keptFromMusic
  | addedFromRecovery
deriving DecidableEq, Repr

/-- The mutable state of a `merge_files` run: the destination tree,
the `processed_files` set (as a list), and the printed audit trail. -/
structure MergeState where
  dest : FsTree
  processed : List String
  audit : List (MergeAction × String)
deriving Repr

/-- The body of the first loop of `merge_files`: copy one music file
into the destination and mark it processed. -/
def copyMusicFile (st : MergeState) (pf : String × SFile) : MergeState :=
  { dest := setFile st.dest pf.1 pf.2
    processed := st.processed ++ [pf.1]
    audit := st.audit ++ [(MergeAction.copiedFromMusic, pf.1)] }

/-- The first loop of `merge_files` over `music_files`. -/
def musicPass : MergeState → FsTree → MergeState
  | st, [] => st
  | st, pf :: rest => musicPass (copyMusicFile st pf) rest

/-- The body of the second loop of `merge_files`: if the relative path
was processed, compare the destination's mtime (materialized from the
music copy) with the recovery file's mtime and overwrite only when the
recovery file is strictly newer; otherwise copy the recovery file.
The `none` branch is unreachable (a processed path always exists in
the destination); in the script `os.path.getmtime` would be reached
only on an existing file there. -/
def copyRecoveryFile (st : MergeState) (pf : String × SFile) : MergeState :=
  if pf.1 ∈ st.processed then
    match getFile st.dest pf.1 with
    | some destF =>
      if destF.mtime < pf.2.mtime then
        { st with dest := setFile st.dest pf.1 pf.2
                  audit := st.audit ++ [(MergeAction.updatedFromRecovery, pf.1)] }
      else
        { st with audit := st.audit ++ [(MergeAction.keptFromMusic, pf.1)] }
    | none => st
  else
    { dest := setFile st.dest pf.1 pf.2
      processed := st.processed ++ [pf.1]
      audit := st.audit ++ [(MergeAction.addedFromRecovery, pf.1)] }

/-- The second loop of `merge_files` over `recovery_files`. -/
def recoveryPass : MergeState → FsTree → MergeState
  | st, [] => st
  | st, pf :: rest => recoveryPass (copyRecoveryFile st pf) rest

/-- `merge_files()` from `merge_files.py`: glob the Swift files of both
source roots, copy every music file, then process every recovery file.
`dest0` is whatever already sits in the destination root. -/
def merge_files (music recovery : FsTree) (dest0 : FsTree) : MergeState :=
  recoveryPass (musicPass ⟨dest0, [], []⟩ (swiftFiles music)) (swiftFiles recovery)

/-! ## Lemmas about the merge passes -/

theorem musicPass_processed (L : FsTree) : ∀ st : MergeState,
    (musicPass st L).processed = st.processed ++ L.map Prod.fst := by
  induction L with
  | nil => intro st; simp [musicPass]
  | cons pf rest ih =>
    intro st
    simp [musicPass, ih, copyMusicFile]

theorem musicPass_audit (L : FsTree) : ∀ st : MergeState,
    (musicPass st L).audit =
      st.audit ++ L.map (fun pf => (MergeAction.copiedFromMusic, pf.1)) := by
  induction L with
  | nil => intro st; simp [musicPass]
  | cons pf rest ih =>
    intro st
    simp [musicPass, ih, copyMusicFile]

theorem musicPass_getFile_not_mem (L : FsTree) {p : String}
    (h : p ∉ L.map Prod.fst) : ∀ st : MergeState,
    getFile (musicPass st L).dest p = getFile st.dest p := by
  induction L with
  | nil => intro st; rfl
  | cons pf rest ih =>
    intro st
    simp only [List.map_cons, List.mem_cons] at h
    push_neg at h
    rw [musicPass, ih h.2, copyMusicFile]
    exact getFile_setFile_ne _ _ h.1

theorem musicPass_getFile_mem (L : FsTree) {p : String} {f : SFile}
    (hnd : (L.map Prod.fst).Nodup) (h : (p, f) ∈ L) : ∀ st : MergeState,
    getFile (musicPass st L).dest p = some f := by
  induction L with
  | nil => simp at h
  | cons pf rest ih =>
    intro st
    simp only [List.map_cons, List.nodup_cons] at hnd
    rcases List.mem_cons.mp h with h1 | h2
    · subst h1
      rw [musicPass, musicPass_getFile_not_mem rest hnd.1]
      simp [copyMusicFile, getFile_setFile_same]
    · rw [musicPass]
      exact ih hnd.2 h2 _

theorem exists_binding_of_mem_keys {L : FsTree} {p : String}
    (h : p ∈ L.map Prod.fst) : ∃ f, (p, f) ∈ L := by
  rcases List.mem_map.mp h with ⟨pf, hpf, hfst⟩
  exact ⟨pf.2, by rw [← hfst]; exact hpf⟩

theorem copyRecoveryFile_getFile_ne (st : MergeState) (pf : String × SFile)
    {p : String} (h : p ≠ pf.1) :
    getFile (copyRecoveryFile st pf).dest p = getFile st.dest p := by
  unfold copyRecoveryFile
  split
  · split
    · split
      · exact getFile_setFile_ne _ _ h
      · rfl
    · rfl
  · exact getFile_setFile_ne _ _ h

theorem copyRecoveryFile_processed_mem (st : MergeState) (pf : String × SFile)
    {p : String} (h : p ∈ st.processed) :
    p ∈ (copyRecoveryFile st pf).processed := by
  unfold copyRecoveryFile
  split
  · split
    · split
      · exact h
      · exact h
    · exact h
  · simp [h]

theorem copyRecoveryFile_processed_not_mem (st : MergeState) (pf : String × SFile)
    {p : String} (h1 : p ∉ st.processed) (h2 : p ≠ pf.1) :
    p ∉ (copyRecoveryFile st pf).processed := by
  unfold copyRecoveryFile
  split
  · split
    · split
      · exact h1
      · exact h1
    · exact h1
  · simp [h1, h2]

theorem recoveryPass_getFile_not_mem (L : FsTree) {p : String}
    (h : p ∉ L.map Prod.fst) : ∀ st : MergeState,
    getFile (recoveryPass st L).dest p = getFile st.dest p := by
  induction L with
  | nil => intro st; rfl
  | cons pf rest ih =>
    intro st
    simp only [List.map_cons, List.mem_cons] at h
    push_neg at h
    rw [recoveryPass, ih h.2]
    exact copyRecoveryFile_getFile_ne st pf h.1

theorem recoveryPass_shared (L : FsTree) {p : String} {fm fr : SFile}
    (hnd : (L.map Prod.fst).Nodup) (hmem : (p, fr) ∈ L) :
    ∀ st : MergeState, p ∈ st.processed → getFile st.dest p = some fm →
    getFile (recoveryPass st L).dest p =
      some (if fm.mtime < fr.mtime then fr else fm) := by
  induction L with
  | nil => simp at hmem
  | cons pf rest ih =>
    intro st hproc hdest
    simp only [List.map_cons, List.nodup_cons] at hnd
    rcases List.mem_cons.mp hmem with h1 | h2
    · subst h1
      rw [recoveryPass, recoveryPass_getFile_not_mem rest hnd.1]
      unfold copyRecoveryFile
      simp only [hproc, if_pos, hdest]
      by_cases hlt : fm.mtime < fr.mtime
      · simp [hlt, getFile_setFile_same]
      · simp [hlt, hdest]
    · have hne : p ≠ pf.1 := by
        intro he
        exact hnd.1 (he ▸ List.mem_map.mpr ⟨(p, fr), h2, rfl⟩)
      rw [recoveryPass]
      exact ih hnd.2 h2 _ (copyRecoveryFile_processed_mem st pf hproc)
        ((copyRecoveryFile_getFile_ne st pf hne).trans hdest)

theorem recoveryPass_added (L : FsTree) {p : String} {fr : SFile}
    (hnd : (L.map Prod.fst).Nodup) (hmem : (p, fr) ∈ L) :
    ∀ st : MergeState, p ∉ st.processed →
    getFile (recoveryPass st L).dest p = some fr := by
  induction L with
  | nil => simp at hmem
  | cons pf rest ih =>
    intro st hproc
    simp only [List.map_cons, List.nodup_cons] at hnd
    rcases List.mem_cons.mp hmem with h1 | h2
    · subst h1
      rw [recoveryPass, recoveryPass_getFile_not_mem rest hnd.1]
      unfold copyRecoveryFile
      simp [hproc, getFile_setFile_same]
    · have hne : p ≠ pf.1 := by
        intro he
        exact hnd.1 (he ▸ List.mem_map.mpr ⟨(p, fr), h2, rfl⟩)
      rw [recoveryPass]
      exact ih hnd.2 h2 _ (copyRecoveryFile_processed_not_mem st pf hproc hne)

theorem swiftFiles_keys_nodup {t : FsTree} (h : (t.map Prod.fst).Nodup) :
    ((swiftFiles t).map Prod.fst).Nodup :=
  h.sublist (List.Sublist.map Prod.fst (List.filter_sublist t))

theorem mem_swiftFiles {t : FsTree} {p : String} {f : SFile}
    (hsw : isSwift p = true) (h : (p, f) ∈ t) : (p, f) ∈ swiftFiles t :=
  List.mem_filter.mpr ⟨h, hsw⟩

theorem not_mem_swiftFiles_keys_of_getFile_none {t : FsTree} {p : String}
    (h : getFile t p = none) : p ∉ (swiftFiles t).map Prod.fst := by
  intro hmem
  rcases exists_binding_of_mem_keys hmem with ⟨f, hf⟩
  have : (p, f) ∈ t := List.mem_filter.mp hf |>.1
  exact (alookup_eq_none_iff t p).mp h (List.mem_map.mpr ⟨(p, f), this, rfl⟩)

theorem not_mem_swiftFiles_keys_of_not_swift {t : FsTree} {p : String}
    (h : isSwift p = false) : p ∉ (swiftFiles t).map Prod.fst := by
  intro hmem
  rcases exists_binding_of_mem_keys hmem with ⟨f, hf⟩
  have := List.mem_filter.mp hf |>.2
  simp [h] at this

theorem recoveryPass_processed_not_mem (L : FsTree) {p : String}
    (h : p ∉ L.map Prod.fst) : ∀ st : MergeState, p ∉ st.processed →
    p ∉ (recoveryPass st L).processed := by
  induction L with
  | nil => intro st h1; exact h1
  | cons pf rest ih =>
    intro st h1
    simp only [List.map_cons, List.mem_cons] at h
    push_neg at h
    rw [recoveryPass]
    exact ih h.2 _ (copyRecoveryFile_processed_not_mem st pf h1 h.1)

theorem copyRecoveryFile_audit_not_mem (st : MergeState) (pf : String × SFile)
    {p : String} (h1 : p ∉ st.audit.map Prod.snd) (h2 : p ≠ pf.1) :
    p ∉ (copyRecoveryFile st pf).audit.map Prod.snd := by
  unfold copyRecoveryFile
  split
  · split
    · split
      · simp only [List.map_append, List.mem_append]
        rintro (hc | hc)
        · exact h1 hc
        · simp at hc; exact h2 hc
      · simp only [List.map_append, List.mem_append]
        rintro (hc | hc)
        · exact h1 hc
        · simp at hc; exact h2 hc
    · exact h1
  · simp only [List.map_append, List.mem_append]
    rintro (hc | hc)
    · exact h1 hc
    · simp at hc; exact h2 hc

theorem recoveryPass_audit_not_mem (L : FsTree) {p : String}
    (h : p ∉ L.map Prod.fst) : ∀ st : MergeState,
    p ∉ st.audit.map Prod.snd → p ∉ (recoveryPass st L).audit.map Prod.snd := by
  induction L with
  | nil => intro st h1; exact h1
  | cons pf rest ih =>
    intro st h1
    simp only [List.map_cons, List.mem_cons] at h
    push_neg at h
    rw [recoveryPass]
    exact ih h.2 _ (copyRecoveryFile_audit_not_mem st pf h1 h.1)

theorem copyRecoveryFile_congr (st st' : MergeState) (pf : String × SFile)
    (h1 : st.processed = st'.processed) (h2 : st.audit = st'.audit)
    (h3 : ∀ p ∈ st.processed, getFile st.dest p = getFile st'.dest p) :
    (copyRecoveryFile st pf).processed = (copyRecoveryFile st' pf).processed ∧
    (copyRecoveryFile st pf).audit = (copyRecoveryFile st' pf).audit ∧
    (∀ p ∈ (copyRecoveryFile st pf).processed,
      getFile (copyRecoveryFile st pf).dest p
        = getFile (copyRecoveryFile st' pf).dest p) := by
  by_cases hmem : pf.1 ∈ st.processed
  · have hmem' : pf.1 ∈ st'.processed := h1 ▸ hmem
    have hd : getFile st.dest pf.1 = getFile st'.dest pf.1 := h3 pf.1 hmem
    unfold copyRecoveryFile
    rw [if_pos hmem, if_pos hmem']
    cases hg : getFile st.dest pf.1 with
    | none =>
      rw [hd] at hg
      rw [hg]
      exact ⟨h1, h2, fun p hp => h3 p hp⟩
    | some destF =>
      have hg' : getFile st'.dest pf.1 = some destF := hd ▸ hg
      rw [hg']
      dsimp only
      by_cases hlt : destF.mtime < pf.2.mtime
      · rw [if_pos hlt, if_pos hlt]
        refine ⟨h1, by simp [h2], fun p hp => ?_⟩
        by_cases hppf : p = pf.1
        · subst hppf
          simp [getFile_setFile_same]
        · simp only [getFile_setFile_ne _ _ hppf]
          exact h3 p hp
      · rw [if_neg hlt, if_neg hlt]
        exact ⟨h1, by simp [h2], fun p hp => h3 p hp⟩
  · have hmem' : pf.1 ∉ st'.processed := h1 ▸ hmem
    unfold copyRecoveryFile
    rw [if_neg hmem, if_neg hmem']
    refine ⟨by simp [h1], by simp [h2], fun p hp => ?_⟩
    by_cases hppf : p = pf.1
    · subst hppf
      simp [getFile_setFile_same]
    · simp only [getFile_setFile_ne _ _ hppf]
      simp only [List.mem_append, List.mem_singleton] at hp
      rcases hp with hp | hp
      · exact h3 p hp
      · exact absurd hp hppf

theorem recoveryPass_audit_congr (L : FsTree) : ∀ st st' : MergeState,
    st.processed = st'.processed → st.audit = st'.audit →
    (∀ p ∈ st.processed, getFile st.dest p = getFile st'.dest p) →
    (recoveryPass st L).audit = (recoveryPass st' L).audit := by
  induction L with
  | nil => intro st st' _ h2 _; exact h2
  | cons pf rest ih =>
    intro st st' h1 h2 h3
    rw [recoveryPass, recoveryPass]
    obtain ⟨g1, g2, g3⟩ := copyRecoveryFile_congr st st' pf h1 h2 h3
    exact ih _ _ g1 g2 g3

/-- The resolution rule of the merge, read off from `merge_files.py`:
a Swift path in both sources gets the recovery file exactly when the
recovery file is strictly newer than the music-derived destination
file (whose mtime `shutil.copy2` preserved); a path in one source gets
that source's file; a path in neither keeps whatever the destination
already had. -/
def mergedView (music recovery dest0 : FsTree) (q : String) : Option SFile :=
  match alookup (swiftFiles music) q, alookup (swiftFiles recovery) q with
  | some fm, some fr => some (if fm.mtime < fr.mtime then fr else fm)
  | some fm, none => some fm
  | none, some fr => some fr
  | none, none => getFile dest0 q

theorem merge_dest_eq_mergedView (music recovery dest0 : FsTree)
    (hm : (music.map Prod.fst).Nodup) (hr : (recovery.map Prod.fst).Nodup)
    (q : String) :
    getFile (merge_files music recovery dest0).dest q
      = mergedView music recovery dest0 q := by
  have hndM := swiftFiles_keys_nodup hm
  have hndR := swiftFiles_keys_nodup hr
  rw [merge_files, mergedView]
  cases hM : alookup (swiftFiles music) q with
  | some fm =>
    have hmemM : (q, fm) ∈ swiftFiles music := mem_of_alookup_eq_some hM
    have hproc : q ∈ (musicPass ⟨dest0, [], []⟩ (swiftFiles music)).processed := by
      rw [musicPass_processed]
      simp only [List.nil_append]
      exact List.mem_map.mpr ⟨(q, fm), hmemM, rfl⟩
    have hdest : getFile (musicPass ⟨dest0, [], []⟩ (swiftFiles music)).dest q
        = some fm := musicPass_getFile_mem _ hndM hmemM _
    cases hR : alookup (swiftFiles recovery) q with
    | some fr =>
      exact recoveryPass_shared _ hndR (mem_of_alookup_eq_some hR) _ hproc hdest
    | none =>
      rw [recoveryPass_getFile_not_mem _ ((alookup_eq_none_iff _ _).mp hR)]
      exact hdest
  | none =>
    have hM' : q ∉ (swiftFiles music).map Prod.fst := (alookup_eq_none_iff _ _).mp hM
    have hproc : q ∉ (musicPass ⟨dest0, [], []⟩ (swiftFiles music)).processed := by
      rw [musicPass_processed]
      simpa using hM'
    cases hR : alookup (swiftFiles recovery) q with
    | some fr =>
      exact recoveryPass_added _ hndR (mem_of_alookup_eq_some hR) _ hproc
    | none =>
      rw [recoveryPass_getFile_not_mem _ ((alookup_eq_none_iff _ _).mp hR),
        musicPass_getFile_not_mem _ hM']

/-! ## Claim theorems for the merge -/

/-- Claim C1 counterexample: the merge contract fails for a relative
path that does not end in `.swift`.  Take primary file `A/x.txt`
(content "1", mtime 1) and secondary file `B/x.txt` (content "2",
mtime 2 > 1), exactly the spec's merge-correctness example: the claim
demands the path exist in the destination with content "2", but
`merge_files` only globs `**/*.swift`, so the destination holds
nothing at `x.txt` at all. -/
theorem merge_non_swift_not_merged :
    getFile (merge_files [("x.txt", SFile.mk "1" 1)]
        [("x.txt", SFile.mk "2" 2)] []).dest "x.txt" = none
    ∧ (none : Option SFile) ≠ some (SFile.mk "2" 2) := by
  constructor
  · rfl
  · decide

/-- Claim C1 amended: for the merge of the two source roots into the
destination, restricted to the `*.swift` relative paths the merge
actually considers (anything else is invisible to its glob — see the
counterexample above and claim C9): every Swift relative path present
in either source exists in the destination; a path present only in
one source gets that source's file; and a path present in both gets
the recovery (secondary) file's content exactly when the recovery
file's modification time is strictly greater than that of the
destination file materialized from the music (primary) source —
which, `shutil.copy2` preserving mtimes, carries the music file's
mtime — and otherwise keeps the music-derived file untouched.  The
`if` in the conclusion is precisely that rule. -/
theorem merge_resolution (music recovery dest0 : FsTree) (p : String)
    (fm fr : SFile)
    (hm : (music.map Prod.fst).Nodup) (hr : (recovery.map Prod.fst).Nodup)
    (hsw : isSwift p = true) :
    (getFile music p = some fm → getFile recovery p = none →
      getFile (merge_files music recovery dest0).dest p = some fm)
    ∧ (getFile music p = none → getFile recovery p = some fr →
      getFile (merge_files music recovery dest0).dest p = some fr)
    ∧ (getFile music p = some fm → getFile recovery p = some fr →
      getFile (merge_files music recovery dest0).dest p =
        some (if fm.mtime < fr.mtime then fr else fm)) := by
  have key := merge_dest_eq_mergedView music recovery dest0 hm hr p
  have toSwiftSome : ∀ (t : FsTree) (f : SFile), (t.map Prod.fst).Nodup →
      getFile t p = some f → alookup (swiftFiles t) p = some f := by
    intro t f hnd hg
    exact alookup_eq_some_of_mem_of_nodup (swiftFiles_keys_nodup hnd)
      (mem_swiftFiles hsw (mem_of_alookup_eq_some hg))
  have toSwiftNone : ∀ t : FsTree, getFile t p = none →
      alookup (swiftFiles t) p = none := by
    intro t hg
    exact (alookup_eq_none_iff _ _).mpr (not_mem_swiftFiles_keys_of_getFile_none hg)
  refine ⟨fun h1 h2 => ?_, fun h1 h2 => ?_, fun h1 h2 => ?_⟩
  · rw [key, mergedView, toSwiftSome music fm hm h1, toSwiftNone recovery h2]
  · rw [key, mergedView, toSwiftNone music h1, toSwiftSome recovery fr hr h2]
  · rw [key, mergedView, toSwiftSome music fm hm h1, toSwiftSome recovery fr hr h2]

/-- Claim C1 amended witness: a concrete shared path `x.swift` with
music content "1" (mtime 1) and recovery content "2" (mtime 2): the
merge keeps the strictly newer recovery file. -/
theorem merge_resolution_witness :
    (getFile [("x.swift", SFile.mk "1" 1)] "x.swift" = some (SFile.mk "1" 1) →
      getFile [("x.swift", SFile.mk "2" 2)] "x.swift" = none →
      getFile (merge_files [("x.swift", SFile.mk "1" 1)]
        [("x.swift", SFile.mk "2" 2)] []).dest "x.swift" = some (SFile.mk "1" 1))
    ∧ (getFile [("x.swift", SFile.mk "1" 1)] "x.swift" = none →
      getFile [("x.swift", SFile.mk "2" 2)] "x.swift" = some (SFile.mk "2" 2) →
      getFile (merge_files [("x.swift", SFile.mk "1" 1)]
        [("x.swift", SFile.mk "2" 2)] []).dest "x.swift" = some (SFile.mk "2" 2))
    ∧ (getFile [("x.swift", SFile.mk "1" 1)] "x.swift" = some (SFile.mk "1" 1) →
      getFile [("x.swift", SFile.mk "2" 2)] "x.swift" = some (SFile.mk "2" 2) →
      getFile (merge_files [("x.swift", SFile.mk "1" 1)]
        [("x.swift", SFile.mk "2" 2)] []).dest "x.swift" =
        some (if (SFile.mk "1" 1).mtime < (SFile.mk "2" 2).mtime
          then SFile.mk "2" 2 else SFile.mk "1" 1)) :=
  merge_resolution [("x.swift", SFile.mk "1" 1)] [("x.swift", SFile.mk "2" 2)]
    [] "x.swift" (SFile.mk "1" 1) (SFile.mk "2" 2)
    (by decide) (by decide) (by decide)

/-- Claim C9: the merge only ever considers `*.swift` files.  For a
relative path that does not end in `.swift`, the destination entry is
exactly what it was before the merge (present or absent), the path is
never counted in `processed_files`, and no audit line (copy, update,
keep or add) is ever printed for it. -/
theorem merge_non_swift_frame (music recovery dest0 : FsTree) (p : String)
    (hsw : isSwift p = false) :
    getFile (merge_files music recovery dest0).dest p = getFile dest0 p
    ∧ p ∉ (merge_files music recovery dest0).processed
    ∧ p ∉ (merge_files music recovery dest0).audit.map Prod.snd := by
  have hM : p ∉ (swiftFiles music).map Prod.fst :=
    not_mem_swiftFiles_keys_of_not_swift hsw
  have hR : p ∉ (swiftFiles recovery).map Prod.fst :=
    not_mem_swiftFiles_keys_of_not_swift hsw
  refine ⟨?_, ?_, ?_⟩
  · rw [merge_files, recoveryPass_getFile_not_mem _ hR,
      musicPass_getFile_not_mem _ hM]
  · rw [merge_files]
    refine recoveryPass_processed_not_mem _ hR _ ?_
    rw [musicPass_processed]
    simpa using hM
  · rw [merge_files]
    refine recoveryPass_audit_not_mem _ hR _ ?_
    rw [musicPass_audit]
    intro hc
    simp only [List.nil_append, List.map_map] at hc
    exact hM (by simpa [Function.comp] using hc)

/-- Claim C9 witness: a `README.md` file in both sources and in the
destination is untouched, uncounted and unreported by the merge. -/
theorem merge_non_swift_frame_witness :
    getFile (merge_files [("README.md", SFile.mk "m" 1)]
        [("README.md", SFile.mk "r" 9)]
        [("README.md", SFile.mk "d" 0)]).dest "README.md"
      = getFile [("README.md", SFile.mk "d" 0)] "README.md"
    ∧ "README.md" ∉ (merge_files [("README.md", SFile.mk "m" 1)]
        [("README.md", SFile.mk "r" 9)]
        [("README.md", SFile.mk "d" 0)]).processed
    ∧ "README.md" ∉ (merge_files [("README.md", SFile.mk "m" 1)]
        [("README.md", SFile.mk "r" 9)]
        [("README.md", SFile.mk "d" 0)]).audit.map Prod.snd :=
  merge_non_swift_frame [("README.md", SFile.mk "m" 1)]
    [("README.md", SFile.mk "r" 9)] [("README.md", SFile.mk "d" 0)]
    "README.md" (by decide)

/-- Claim C7 counterexample: a second merge run over unchanged sources
does re-copy and re-report.  With one music file `x.swift` and no
recovery files, the destination after the first run already holds
exactly that file, yet the second run's audit again contains a
`Copied: x.swift (from Music)` entry — a re-copy of a file that is
already byte- and mtime-identical in the destination, so the audit of
a re-run is not free of re-copy entries as the claim states. -/
theorem merge_rerun_audit_recopies :
    (merge_files [("x.swift", SFile.mk "1" 5)] []
        (merge_files [("x.swift", SFile.mk "1" 5)] [] []).dest).audit
      = [(MergeAction.copiedFromMusic, "x.swift")]
    ∧ getFile (merge_files [("x.swift", SFile.mk "1" 5)] [] []).dest "x.swift"
      = some (SFile.mk "1" 5) := by
  constructor <;> rfl

/-- Claim C7 amended: running the merge a second time with unchanged
sources leaves the destination tree extensionally identical to what it
was after the first run, and the second run's audit report is exactly
the first run's (the merge re-copies unconditionally, so the re-run
repeats the same copy/update/keep/add entries rather than omitting
them). -/
theorem merge_idempotent (music recovery dest0 : FsTree) (q : String)
    (hm : (music.map Prod.fst).Nodup) (hr : (recovery.map Prod.fst).Nodup) :
    getFile (merge_files music recovery
        (merge_files music recovery dest0).dest).dest q
      = getFile (merge_files music recovery dest0).dest q
    ∧ (merge_files music recovery
        (merge_files music recovery dest0).dest).audit
      = (merge_files music recovery dest0).audit := by
  constructor
  · rw [merge_dest_eq_mergedView music recovery _ hm hr q,
      merge_dest_eq_mergedView music recovery dest0 hm hr q]
    unfold mergedView
    cases hM : alookup (swiftFiles music) q with
    | some fm => cases hR : alookup (swiftFiles recovery) q <;> rfl
    | none =>
      cases hR : alookup (swiftFiles recovery) q with
      | some fr => rfl
      | none =>
        dsimp only
        rw [merge_dest_eq_mergedView music recovery dest0 hm hr q]
        unfold mergedView
        rw [hM, hR]
  · rw [merge_files, merge_files]
    apply recoveryPass_audit_congr
    · rw [musicPass_processed, musicPass_processed]
    · rw [musicPass_audit, musicPass_audit]
    · intro p hp
      rw [musicPass_processed] at hp
      simp only [List.nil_append] at hp
      rcases exists_binding_of_mem_keys hp with ⟨f, hf⟩
      rw [musicPass_getFile_mem _ (swiftFiles_keys_nodup hm) hf,
        musicPass_getFile_mem _ (swiftFiles_keys_nodup hm) hf]

/-- Claim C7 amended witness: concrete two-run merge with one shared
path where the recovery file is newer. -/
theorem merge_idempotent_witness :
    getFile (merge_files [("x.swift", SFile.mk "1" 1)]
        [("x.swift", SFile.mk "2" 2)]
        (merge_files [("x.swift", SFile.mk "1" 1)]
          [("x.swift", SFile.mk "2" 2)] []).dest).dest "x.swift"
      = getFile (merge_files [("x.swift", SFile.mk "1" 1)]
          [("x.swift", SFile.mk "2" 2)] []).dest "x.swift"
    ∧ (merge_files [("x.swift", SFile.mk "1" 1)]
        [("x.swift", SFile.mk "2" 2)]
        (merge_files [("x.swift", SFile.mk "1" 1)]
          [("x.swift", SFile.mk "2" 2)] []).dest).audit
      = (merge_files [("x.swift", SFile.mk "1" 1)]
          [("x.swift", SFile.mk "2" 2)] []).audit :=
  merge_idempotent [("x.swift", SFile.mk "1" 1)] [("x.swift", SFile.mk "2" 2)]
    [] "x.swift" (by decide) (by decide)

/-! ## Inventory and classification (`compare_code_files.py`) -/

/-- One record produced by `collect_swift_files`: the tuple
`(rel_path, location_key, abs_path, sha256)`. -/
structure FileRecord where
  rel_path : String
  loc : String
  abs_path : String
  sha : String
deriving DecidableEq, Repr

/-- One Swift file found under a location root, together with the
outcome of `compute_sha256` on it: `none` models the caught exception
(`[WARN] Could not hash ...; continue`), `some sha` the digest. -/
structure ScanFile where
  rel_path : String
  abs_path : String
  hashResult : Option String
deriving DecidableEq, Repr

/-- One entry of the `LOCATIONS` mapping as the scan sees it:
the location key, whether `os.path.isdir` holds for its root, and the
Swift files the recursive glob yields under it. -/
structure LocationScan where
  name : String
  present : Bool
  files : List ScanFile
deriving Repr

/-- `collect_swift_files()` : walk the locations in order; a root that
is not a directory is skipped silently; a file whose hashing raised is
warned about and excluded while the scan continues. -/
def collect_swift_files : List LocationScan → List FileRecord
  | [] => []
  | loc :: rest =>
    (if loc.present then
      loc.files.filterMap (fun f =>
        match f.hashResult with
        | some sha => some (FileRecord.mk f.rel_path loc.name f.abs_path sha)
        | none => none)
    else []) ++ collect_swift_files rest

/-- `by_hash[k].append(v)` / `by_path[k].append(v)` on a
`defaultdict(list)`: append to the existing group, or create a new
group at the end (Python dicts preserve insertion order). -/
def addToGroup {α : Type} (k : String) (v : α) :
    List (String × List α) → List (String × List α)
  | [] => [(k, [v])]
  | (q, vs) :: rest =>
    if q = k then (q, vs ++ [v]) :: rest else (q, vs) :: addToGroup k v rest

/-- A `defaultdict(list)` built by one `for`-loop of appends, keyed by
`key`: the insertion-ordered grouping of `records`. -/
def pyGroupByAux {α : Type} (key : α → String) :
    List (String × List α) → List α → List (String × List α)
  | acc, [] => acc
  | acc, x :: xs => pyGroupByAux key (addToGroup (key x) x acc) xs

def pyGroupBy {α : Type} (key : α → String) (l : List α) :
    List (String × List α) :=
  pyGroupByAux key [] l

/-- `build_content_groups(records)`: group by sha, keep only groups
with two or more members, values are `(rel_path, location, abs_path)`
triples. -/
def build_content_groups (records : List FileRecord) :
    List (String × List (String × String × String)) :=
  (pyGroupBy (fun r => r.sha) records).filterMap (fun g =>
    if 1 < g.2.length then
      some (g.1, g.2.map (fun r => (r.rel_path, r.loc, r.abs_path)))
    else none)

/-- `build_conflict_groups(records)`: group by relative path, keep only
paths whose set of distinct hashes has size at least two, values are
`(location, abs_path, sha)` triples. -/
def build_conflict_groups (records : List FileRecord) :
    List (String × List (String × String × String)) :=
  (pyGroupBy (fun r => r.rel_path) records).filterMap (fun g =>
    if 1 < ((g.2.map (fun r => r.sha)).dedup).length then
      some (g.1, g.2.map (fun r => (r.loc, r.abs_path, r.sha)))
    else none)

/-! ### Lemmas about `pyGroupBy` -/

theorem alookup_addToGroup_same {α : Type} (k : String) (v : α)
    (acc : List (String × List α)) :
    alookup (addToGroup k v acc) k = some (((alookup acc k).getD []) ++ [v]) := by
  induction acc with
  | nil => simp [addToGroup, alookup]
  | cons qvs rest ih =>
    obtain ⟨q, vs⟩ := qvs
    by_cases h : q = k
    · subst h
      simp [addToGroup, alookup]
    · simp [addToGroup, alookup, h, ih]

theorem alookup_addToGroup_ne {α : Type} {k q : String} (v : α)
    (acc : List (String × List α)) (h : q ≠ k) :
    alookup (addToGroup k v acc) q = alookup acc q := by
  induction acc with
  | nil => simp [addToGroup, alookup, Ne.symm h]
  | cons pvs rest ih =>
    obtain ⟨p, vs⟩ := pvs
    by_cases hp : p = k
    · subst hp
      simp [addToGroup, alookup, Ne.symm h]
    · by_cases hq : p = q <;> simp [addToGroup, alookup, hp, hq, ih, h, Ne.symm h]

/-- Combining an already-accumulated group with the matches still to
come (helper for the `pyGroupByAux` characterization). -/
def combineGroup {α : Type} (o : Option (List α)) (l : List α) : Option (List α) :=
  match o with
  | some g => some (g ++ l)
  | none => if l.isEmpty then none else some l

theorem alookup_pyGroupByAux {α : Type} (key : α → String) (q : String)
    (xs : List α) : ∀ acc : List (String × List α),
    alookup (pyGroupByAux key acc xs) q
      = combineGroup (alookup acc q) (xs.filter (fun x => key x = q)) := by
  induction xs with
  | nil =>
    intro acc
    cases h : alookup acc q <;> simp [pyGroupByAux, combineGroup, h]
  | cons x xs ih =>
    intro acc
    rw [pyGroupByAux, ih]
    by_cases hk : key x = q
    · rw [← hk, alookup_addToGroup_same]
      cases h : alookup acc (key x) with
      | none =>
        simp only [combineGroup, h, Option.getD_none, List.nil_append]
        rw [List.filter_cons_of_pos (by simp [hk])]
        simp [combineGroup]
      | some g =>
        simp only [combineGroup, h, Option.getD_some]
        rw [List.filter_cons_of_pos (by simp [hk])]
        simp [combineGroup]
    · rw [alookup_addToGroup_ne _ _ (fun he => hk he.symm)]
      rw [List.filter_cons_of_neg (by simp [hk])]

theorem alookup_pyGroupBy {α : Type} (key : α → String) (q : String)
    (l : List α) :
    alookup (pyGroupBy key l) q
      = if (l.filter (fun x => key x = q)).isEmpty then none
        else some (l.filter (fun x => key x = q)) := by
  rw [pyGroupBy, alookup_pyGroupByAux]
  simp [combineGroup, alookup]

theorem addToGroup_keys {α : Type} (k : String) (v : α)
    (acc : List (String × List α)) :
    (addToGroup k v acc).map Prod.fst
      = if k ∈ acc.map Prod.fst then acc.map Prod.fst
        else acc.map Prod.fst ++ [k] := by
  induction acc with
  | nil => simp [addToGroup]
  | cons qvs rest ih =>
    obtain ⟨q, vs⟩ := qvs
    by_cases hq : q = k
    · subst hq
      simp [addToGroup]
    · simp only [addToGroup, if_neg hq, List.map_cons, List.mem_cons]
      by_cases hk : k ∈ rest.map Prod.fst
      · simp [hk, ih, Ne.symm hq]
      · simp [hk, ih, Ne.symm hq]

theorem addToGroup_keys_nodup {α : Type} {k : String} {v : α}
    {acc : List (String × List α)} (h : (acc.map Prod.fst).Nodup) :
    ((addToGroup k v acc).map Prod.fst).Nodup := by
  rw [addToGroup_keys]
  by_cases hk : k ∈ acc.map Prod.fst
  · simpa [hk] using h
  · simp only [hk, if_false]
    exact List.Nodup.append h (List.nodup_singleton k)
      (by simpa [List.disjoint_singleton] using hk)

theorem pyGroupByAux_keys_nodup {α : Type} (key : α → String)
    (xs : List α) : ∀ acc : List (String × List α),
    (acc.map Prod.fst).Nodup → ((pyGroupByAux key acc xs).map Prod.fst).Nodup := by
  induction xs with
  | nil => intro acc h; exact h
  | cons x xs ih =>
    intro acc h
    exact ih _ (addToGroup_keys_nodup h)

theorem pyGroupBy_keys_nodup {α : Type} (key : α → String) (l : List α) :
    ((pyGroupBy key l).map Prod.fst).Nodup :=
  pyGroupByAux_keys_nodup key l [] (by simp)

theorem alookup_of_mem_of_keys_nodup {κ β : Type} [DecidableEq κ]
    {t : List (κ × β)} {q : κ} {v : β}
    (hnd : (t.map Prod.fst).Nodup) (h : (q, v) ∈ t) :
    alookup t q = some v :=
  alookup_eq_some_of_mem_of_nodup hnd h

theorem mem_keys_filterMapGroup {α β : Type} (p : List α → Prop)
    [DecidablePred p] (F : List α → β) (l : List (String × List α))
    {q : String}
    (h : q ∈ (l.filterMap (fun g =>
      if p g.2 then some (g.1, F g.2) else none)).map Prod.fst) :
    q ∈ l.map Prod.fst := by
  induction l with
  | nil => simp at h
  | cons kvs rest ih =>
    obtain ⟨k, vs⟩ := kvs
    rw [List.filterMap_cons] at h
    by_cases hp : p vs
    · simp only [hp, ite_true] at h
      simp only [List.map_cons, List.mem_cons] at h ⊢
      rcases h with h | h
      · exact Or.inl h
      · exact Or.inr (ih h)
    · simp only [hp, ite_false] at h
      simp only [List.map_cons, List.mem_cons]
      exact Or.inr (ih h)

theorem alookup_filterMapGroup {α β : Type} (p : List α → Prop)
    [DecidablePred p] (F : List α → β) (l : List (String × List α))
    (q : String) (hnd : (l.map Prod.fst).Nodup) :
    alookup (l.filterMap (fun g =>
        if p g.2 then some (g.1, F g.2) else none)) q
      = match alookup l q with
        | some vs => if p vs then some (F vs) else none
        | none => none := by
  induction l with
  | nil => simp [alookup]
  | cons kvs rest ih =>
    obtain ⟨k, vs⟩ := kvs
    simp only [List.map_cons, List.nodup_cons] at hnd
    by_cases hk : k = q
    · subst hk
      rw [List.filterMap_cons]
      by_cases hp : p vs
      · simp only [hp, ite_true]
        simp [alookup, hp]
      · simp only [hp, ite_false]
        have hnone : alookup (rest.filterMap (fun g =>
            if p g.2 then some (g.1, F g.2) else none)) k = none := by
          rw [alookup_eq_none_iff]
          intro hc
          exact hnd.1 (mem_keys_filterMapGroup p F rest hc)
        simp [alookup, hp, hnone]
    · rw [List.filterMap_cons]
      by_cases hp : p vs
      · simp only [hp, ite_true]
        simpa [alookup, hk] using ih hnd.2
      · simp only [hp, ite_false]
        simpa [alookup, hk] using ih hnd.2

theorem group_mem_pyGroupBy {α : Type} {key : α → String} {l : List α}
    {g : String × List α} (h : g ∈ pyGroupBy key l) :
    g.2 = l.filter (fun x => key x = g.1) ∧ g.2 ≠ [] := by
  have hl : alookup (pyGroupBy key l) g.1 = some g.2 :=
    alookup_of_mem_of_keys_nodup (pyGroupBy_keys_nodup key l)
      (by obtain ⟨k, vs⟩ := g; exact h)
  rw [alookup_pyGroupBy] at hl
  by_cases he : (l.filter (fun x => key x = g.1)).isEmpty
  · simp [he] at hl
  · rw [if_neg he] at hl
    have hg2 : g.2 = l.filter (fun x => key x = g.1) := (Option.some.inj hl).symm
    refine ⟨hg2, ?_⟩
    intro hnil
    exact he (by rw [← hg2, hnil]; rfl)

theorem two_le_length_of_two_mem {α : Type} {a b : α} {l : List α}
    (ha : a ∈ l) (hb : b ∈ l) (hne : a ≠ b) : 2 ≤ l.length := by
  induction l with
  | nil => simp at ha
  | cons x xs ih =>
    rcases List.mem_cons.mp ha with rfl | ha2
    · rcases List.mem_cons.mp hb with rfl | hb2
      · exact absurd rfl hne
      · have : 1 ≤ xs.length := List.length_pos.mpr (List.ne_nil_of_mem hb2)
        simpa using Nat.succ_le_succ this
    · have : 1 ≤ xs.length := List.length_pos.mpr (List.ne_nil_of_mem ha2)
      simpa using Nat.succ_le_succ this

theorem one_lt_dedup_length_of_two_ne {α : Type} [DecidableEq α]
    {a b : α} {l : List α} (ha : a ∈ l) (hb : b ∈ l) (hne : a ≠ b) :
    1 < l.dedup.length :=
  two_le_length_of_two_mem (List.mem_dedup.mpr ha) (List.mem_dedup.mpr hb) hne

/-- Claim C3: `build_content_groups` groups records by content
fingerprint and returns exactly the groups with two or more members.
Given any two distinct records sharing a fingerprint, the returned
mapping at that fingerprint is exactly the `(rel_path, loc, abs_path)`
triple of every record with that fingerprint, in scan order, and it
contains both records' triples regardless of their paths or locations;
moreover every returned group has at least two members and lists
exactly the records of its fingerprint. -/
theorem build_content_groups_spec (records : List FileRecord)
    (r1 r2 : FileRecord) (h1 : r1 ∈ records) (h2 : r2 ∈ records)
    (hne : r1 ≠ r2) (hsha : r1.sha = r2.sha) :
    alookup (build_content_groups records) r1.sha
      = some ((records.filter (fun r => r.sha = r1.sha)).map
          (fun r => (r.rel_path, r.loc, r.abs_path)))
    ∧ (r1.rel_path, r1.loc, r1.abs_path)
      ∈ ((records.filter (fun r => r.sha = r1.sha)).map
          (fun r => (r.rel_path, r.loc, r.abs_path)))
    ∧ (r2.rel_path, r2.loc, r2.abs_path)
      ∈ ((records.filter (fun r => r.sha = r1.sha)).map
          (fun r => (r.rel_path, r.loc, r.abs_path)))
    ∧ (build_content_groups records).all (fun g => 2 ≤ g.2.length)
    ∧ (build_content_groups records).all (fun g =>
        g.2 = (records.filter (fun r => r.sha = g.1)).map
          (fun r => (r.rel_path, r.loc, r.abs_path))) := by
  have hmem1 : r1 ∈ records.filter (fun r => r.sha = r1.sha) :=
    List.mem_filter.mpr ⟨h1, by simp⟩
  have hmem2 : r2 ∈ records.filter (fun r => r.sha = r1.sha) :=
    List.mem_filter.mpr ⟨h2, by simp [hsha]⟩
  have hlen : 1 < (records.filter (fun r => r.sha = r1.sha)).length :=
    two_le_length_of_two_mem hmem1 hmem2 hne
  refine ⟨?_, List.mem_map_of_mem _ hmem1, List.mem_map_of_mem _ hmem2, ?_, ?_⟩
  · rw [build_content_groups,
      alookup_filterMapGroup (fun vs => 1 < vs.length)
        (fun vs => vs.map (fun r => (r.rel_path, r.loc, r.abs_path)))
        (pyGroupBy (fun r => r.sha) records) r1.sha
        (pyGroupBy_keys_nodup _ records),
      alookup_pyGroupBy]
    rw [if_neg (by simp [List.isEmpty_iff, List.ne_nil_of_mem hmem1])]
    simp [hlen]
  · rw [List.all_eq_true]
    intro g hg
    rcases List.mem_filterMap.mp hg with ⟨g0, hg0, hfg⟩
    by_cases hp : 1 < g0.2.length
    · rw [if_pos hp] at hfg
      injection hfg with hfg
      subst hfg
      simpa using hp
    · rw [if_neg hp] at hfg
      exact absurd hfg (by simp)
  · rw [List.all_eq_true]
    intro g hg
    rcases List.mem_filterMap.mp hg with ⟨g0, hg0, hfg⟩
    by_cases hp : 1 < g0.2.length
    · rw [if_pos hp] at hfg
      injection hfg with hfg
      subst hfg
      have := (group_mem_pyGroupBy hg0).1
      simp only [decide_eq_true_eq]
      rw [this]
    · rw [if_neg hp] at hfg
      exact absurd hfg (by simp)

/-- Claim C3 witness: two byte-identical files at different paths and
locations land in one duplicate group with both triples listed. -/
theorem build_content_groups_spec_witness :
    alookup (build_content_groups
        [FileRecord.mk "a.swift" "current" "/c/a.swift" "h1",
         FileRecord.mk "b.swift" "backup" "/b/b.swift" "h1"])
        (FileRecord.mk "a.swift" "current" "/c/a.swift" "h1").sha
      = some (([FileRecord.mk "a.swift" "current" "/c/a.swift" "h1",
          FileRecord.mk "b.swift" "backup" "/b/b.swift" "h1"].filter
            (fun r => r.sha = (FileRecord.mk "a.swift" "current" "/c/a.swift" "h1").sha)).map
          (fun r => (r.rel_path, r.loc, r.abs_path)))
    ∧ ((FileRecord.mk "a.swift" "current" "/c/a.swift" "h1").rel_path,
        (FileRecord.mk "a.swift" "current" "/c/a.swift" "h1").loc,
        (FileRecord.mk "a.swift" "current" "/c/a.swift" "h1").abs_path)
      ∈ (([FileRecord.mk "a.swift" "current" "/c/a.swift" "h1",
          FileRecord.mk "b.swift" "backup" "/b/b.swift" "h1"].filter
            (fun r => r.sha = (FileRecord.mk "a.swift" "current" "/c/a.swift" "h1").sha)).map
          (fun r => (r.rel_path, r.loc, r.abs_path)))
    ∧ ((FileRecord.mk "b.swift" "backup" "/b/b.swift" "h1").rel_path,
        (FileRecord.mk "b.swift" "backup" "/b/b.swift" "h1").loc,
        (FileRecord.mk "b.swift" "backup" "/b/b.swift" "h1").abs_path)
      ∈ (([FileRecord.mk "a.swift" "current" "/c/a.swift" "h1",
          FileRecord.mk "b.swift" "backup" "/b/b.swift" "h1"].filter
            (fun r => r.sha = (FileRecord.mk "a.swift" "current" "/c/a.swift" "h1").sha)).map
          (fun r => (r.rel_path, r.loc, r.abs_path)))
    ∧ (build_content_groups
        [FileRecord.mk "a.swift" "current" "/c/a.swift" "h1",
         FileRecord.mk "b.swift" "backup" "/b/b.swift" "h1"]).all
        (fun g => 2 ≤ g.2.length)
    ∧ (build_content_groups
        [FileRecord.mk "a.swift" "current" "/c/a.swift" "h1",
         FileRecord.mk "b.swift" "backup" "/b/b.swift" "h1"]).all
        (fun g =>
          g.2 = ([FileRecord.mk "a.swift" "current" "/c/a.swift" "h1",
            FileRecord.mk "b.swift" "backup" "/b/b.swift" "h1"].filter
              (fun r => r.sha = g.1)).map
            (fun r => (r.rel_path, r.loc, r.abs_path))) :=
  build_content_groups_spec
    [FileRecord.mk "a.swift" "current" "/c/a.swift" "h1",
     FileRecord.mk "b.swift" "backup" "/b/b.swift" "h1"]
    (FileRecord.mk "a.swift" "current" "/c/a.swift" "h1")
    (FileRecord.mk "b.swift" "backup" "/b/b.swift" "h1")
    (by decide) (by decide) (by decide) (by decide)

/-- Claim C2: `build_conflict_groups` returns exactly the relative
paths whose records carry at least two distinct content fingerprints.
Given two records at the same path with different fingerprints, the
returned mapping at that path lists the `(location, abs_path, sha)`
triple of every record at that path, in scan order — including both
witnesses' locations.  Every returned group carries at least two
distinct fingerprints among its listed triples (so a path whose
records all share one fingerprint, in particular byte-identical copies
across locations, is never returned), and every returned group lists
exactly the records of its path. -/
theorem build_conflict_groups_spec (records : List FileRecord)
    (r1 r2 : FileRecord) (h1 : r1 ∈ records) (h2 : r2 ∈ records)
    (hpath : r1.rel_path = r2.rel_path) (hsha : r1.sha ≠ r2.sha) :
    alookup (build_conflict_groups records) r1.rel_path
      = some ((records.filter (fun r => r.rel_path = r1.rel_path)).map
          (fun r => (r.loc, r.abs_path, r.sha)))
    ∧ (r1.loc, r1.abs_path, r1.sha)
      ∈ ((records.filter (fun r => r.rel_path = r1.rel_path)).map
          (fun r => (r.loc, r.abs_path, r.sha)))
    ∧ (r2.loc, r2.abs_path, r2.sha)
      ∈ ((records.filter (fun r => r.rel_path = r1.rel_path)).map
          (fun r => (r.loc, r.abs_path, r.sha)))
    ∧ (build_conflict_groups records).all (fun g =>
        1 < ((g.2.map (fun t => t.2.2)).dedup).length)
    ∧ (build_conflict_groups records).all (fun g =>
        g.2 = (records.filter (fun r => r.rel_path = g.1)).map
          (fun r => (r.loc, r.abs_path, r.sha))) := by
  have hmem1 : r1 ∈ records.filter (fun r => r.rel_path = r1.rel_path) :=
    List.mem_filter.mpr ⟨h1, by simp⟩
  have hmem2 : r2 ∈ records.filter (fun r => r.rel_path = r1.rel_path) :=
    List.mem_filter.mpr ⟨h2, by simp [hpath]⟩
  have hdedup : 1 < (((records.filter
      (fun r => r.rel_path = r1.rel_path)).map (fun r => r.sha)).dedup).length :=
    one_lt_dedup_length_of_two_ne (List.mem_map_of_mem _ hmem1)
      (List.mem_map_of_mem _ hmem2) hsha
  refine ⟨?_, List.mem_map_of_mem _ hmem1, List.mem_map_of_mem _ hmem2, ?_, ?_⟩
  · rw [build_conflict_groups,
      alookup_filterMapGroup (fun vs => 1 < ((vs.map (fun r => r.sha)).dedup).length)
        (fun vs => vs.map (fun r => (r.loc, r.abs_path, r.sha)))
        (pyGroupBy (fun r => r.rel_path) records) r1.rel_path
        (pyGroupBy_keys_nodup _ records),
      alookup_pyGroupBy]
    rw [if_neg (by simp [List.isEmpty_iff, List.ne_nil_of_mem hmem1])]
    simp [hdedup]
  · rw [List.all_eq_true]
    intro g hg
    rcases List.mem_filterMap.mp hg with ⟨g0, hg0, hfg⟩
    by_cases hp : 1 < ((g0.2.map (fun r => r.sha)).dedup).length
    · rw [if_pos hp] at hfg
      injection hfg with hfg
      subst hfg
      simp only [decide_eq_true_eq]
      have hmaps : (g0.2.map (fun r => (r.loc, r.abs_path, r.sha))).map
          (fun t => t.2.2) = g0.2.map (fun r => r.sha) := by
        rw [List.map_map]
        rfl
      simpa [hmaps] using hp
    · rw [if_neg hp] at hfg
      exact absurd hfg (by simp)
  · rw [List.all_eq_true]
    intro g hg
    rcases List.mem_filterMap.mp hg with ⟨g0, hg0, hfg⟩
    by_cases hp : 1 < ((g0.2.map (fun r => r.sha)).dedup).length
    · rw [if_pos hp] at hfg
      injection hfg with hfg
      subst hfg
      have := (group_mem_pyGroupBy hg0).1
      simp only [decide_eq_true_eq]
      rw [this]
    · rw [if_neg hp] at hfg
      exact absurd hfg (by simp)

/-- Claim C2 witness: the same relative path in two locations with
different fingerprints is reported as a conflict listing both
locations. -/
theorem build_conflict_groups_spec_witness :
    alookup (build_conflict_groups
        [FileRecord.mk "x.swift" "current" "/c/x.swift" "h1",
         FileRecord.mk "x.swift" "backup" "/b/x.swift" "h2"])
        (FileRecord.mk "x.swift" "current" "/c/x.swift" "h1").rel_path
      = some (([FileRecord.mk "x.swift" "current" "/c/x.swift" "h1",
          FileRecord.mk "x.swift" "backup" "/b/x.swift" "h2"].filter
            (fun r => r.rel_path
              = (FileRecord.mk "x.swift" "current" "/c/x.swift" "h1").rel_path)).map
          (fun r => (r.loc, r.abs_path, r.sha)))
    ∧ ((FileRecord.mk "x.swift" "current" "/c/x.swift" "h1").loc,
        (FileRecord.mk "x.swift" "current" "/c/x.swift" "h1").abs_path,
        (FileRecord.mk "x.swift" "current" "/c/x.swift" "h1").sha)
      ∈ (([FileRecord.mk "x.swift" "current" "/c/x.swift" "h1",
          FileRecord.mk "x.swift" "backup" "/b/x.swift" "h2"].filter
            (fun r => r.rel_path
              = (FileRecord.mk "x.swift" "current" "/c/x.swift" "h1").rel_path)).map
          (fun r => (r.loc, r.abs_path, r.sha)))
    ∧ ((FileRecord.mk "x.swift" "backup" "/b/x.swift" "h2").loc,
        (FileRecord.mk "x.swift" "backup" "/b/x.swift" "h2").abs_path,
        (FileRecord.mk "x.swift" "backup" "/b/x.swift" "h2").sha)
      ∈ (([FileRecord.mk "x.swift" "current" "/c/x.swift" "h1",
          FileRecord.mk "x.swift" "backup" "/b/x.swift" "h2"].filter
            (fun r => r.rel_path
              = (FileRecord.mk "x.swift" "current" "/c/x.swift" "h1").rel_path)).map
          (fun r => (r.loc, r.abs_path, r.sha)))
    ∧ (build_conflict_groups
        [FileRecord.mk "x.swift" "current" "/c/x.swift" "h1",
         FileRecord.mk "x.swift" "backup" "/b/x.swift" "h2"]).all (fun g =>
        1 < ((g.2.map (fun t => t.2.2)).dedup).length)
    ∧ (build_conflict_groups
        [FileRecord.mk "x.swift" "current" "/c/x.swift" "h1",
         FileRecord.mk "x.swift" "backup" "/b/x.swift" "h2"]).all (fun g =>
        g.2 = ([FileRecord.mk "x.swift" "current" "/c/x.swift" "h1",
          FileRecord.mk "x.swift" "backup" "/b/x.swift" "h2"].filter
            (fun r => r.rel_path = g.1)).map
          (fun r => (r.loc, r.abs_path, r.sha))) :=
  build_conflict_groups_spec
    [FileRecord.mk "x.swift" "current" "/c/x.swift" "h1",
     FileRecord.mk "x.swift" "backup" "/b/x.swift" "h2"]
    (FileRecord.mk "x.swift" "current" "/c/x.swift" "h1")
    (FileRecord.mk "x.swift" "backup" "/b/x.swift" "h2")
    (by decide) (by decide) (by decide) (by decide)

/-- Claim C8: the inventory scan is resilient.  A configured root that
does not exist on disk is skipped without affecting the records of the
other roots, and a file whose hashing raised is excluded from the
record set while every other file of the same root (before and after
it in scan order) is still collected — no single bad file or missing
root aborts the batch (the scan is a total function of its input). -/
theorem collect_swift_files_resilient (s1 s2 : List LocationScan)
    (loc : LocationScan) (nm : String) (fs1 fs2 : List ScanFile)
    (bad : ScanFile) (hmiss : loc.present = false)
    (hbad : bad.hashResult = none) :
    collect_swift_files (s1 ++ loc :: s2) = collect_swift_files (s1 ++ s2)
    ∧ collect_swift_files [LocationScan.mk nm true (fs1 ++ bad :: fs2)]
      = collect_swift_files [LocationScan.mk nm true (fs1 ++ fs2)] := by
  constructor
  · induction s1 with
    | nil => simp [collect_swift_files, hmiss]
    | cons x s1 ih => simp [collect_swift_files, ih]
  · simp only [collect_swift_files, if_pos, List.append_nil]
    rw [List.filterMap_append, List.filterMap_append]
    congr 1
    rw [List.filterMap_cons]
    simp [hbad]

/-- Claim C8 witness: a missing root between two present ones is
skipped, and an unhashable file between two good ones is excluded
while both good files are kept. -/
theorem collect_swift_files_resilient_witness :
    collect_swift_files
        ([LocationScan.mk "current" true [ScanFile.mk "a.swift" "/c/a.swift" (some "h1")]]
          ++ LocationScan.mk "music" false [ScanFile.mk "z.swift" "/m/z.swift" (some "h9")]
            :: [LocationScan.mk "backup" true [ScanFile.mk "b.swift" "/b/b.swift" (some "h2")]])
      = collect_swift_files
        ([LocationScan.mk "current" true [ScanFile.mk "a.swift" "/c/a.swift" (some "h1")]]
          ++ [LocationScan.mk "backup" true [ScanFile.mk "b.swift" "/b/b.swift" (some "h2")]])
    ∧ collect_swift_files [LocationScan.mk "current" true
        ([ScanFile.mk "a.swift" "/c/a.swift" (some "h1")]
          ++ ScanFile.mk "bad.swift" "/c/bad.swift" none
            :: [ScanFile.mk "c.swift" "/c/c.swift" (some "h3")])]
      = collect_swift_files [LocationScan.mk "current" true
        ([ScanFile.mk "a.swift" "/c/a.swift" (some "h1")]
          ++ [ScanFile.mk "c.swift" "/c/c.swift" (some "h3")])] :=
  collect_swift_files_resilient
    [LocationScan.mk "current" true [ScanFile.mk "a.swift" "/c/a.swift" (some "h1")]]
    [LocationScan.mk "backup" true [ScanFile.mk "b.swift" "/b/b.swift" (some "h2")]]
    (LocationScan.mk "music" false [ScanFile.mk "z.swift" "/m/z.swift" (some "h9")])
    "current"
    [ScanFile.mk "a.swift" "/c/a.swift" (some "h1")]
    [ScanFile.mk "c.swift" "/c/c.swift" (some "h3")]
    (ScanFile.mk "bad.swift" "/c/bad.swift" none)
    rfl rfl

/-! ## CSV reports (`write_duplicates_csv`, `write_conflicts_csv`) -/

/-- The data rows written by `write_duplicates_csv`:
`sorted(groups.items(), key=lambda x: len(x[1]), reverse=True)`, one
row `(sha256, count, "rel | loc; ...")` per group.  Python's `sorted`
is stable, which `List.insertionSort` with this relation reproduces
(ties keep insertion order). -/
def write_duplicates_rows
    (groups : List (String × List (String × String × String))) :
    List (String × Nat × String) :=
  (List.insertionSort (fun a b => b.2.length ≤ a.2.length) groups).map
    (fun g => (g.1, g.2.length,
      String.intercalate "; " (g.2.map (fun t => t.1 ++ " | " ++ t.2.1))))

/-- The data rows written by `write_conflicts_csv`:
`for rel_path, entries in sorted(conflicts.items())`, then one row
`(rel_path, location, sha256)` per stored entry in stored order (the
code does **not** sort inside a group).  `sorted` on the items of a
dict compares the key first and keys are unique, so sorting by key
alone is faithful. -/
def write_conflicts_rows
    (conflicts : List (String × List (String × String × String))) :
    List (String × String × String) :=
  (List.insertionSort (fun a b => a.1 ≤ b.1) conflicts).flatMap
    (fun g => g.2.map (fun t => (g.1, t.1, t.2.2)))

theorem pairwise_of_const {α : Type} {R : α → α → Prop}
    (h : ∀ a b, R a b) (l : List α) : l.Pairwise R := by
  induction l with
  | nil => exact List.Pairwise.nil
  | cons x xs ih => exact List.Pairwise.cons (fun y _ => h x y) ih

theorem flatMap_rows_filter_nil
    (G : List (String × List (String × String × String))) (p : String)
    (h : p ∉ G.map Prod.fst) :
    (G.flatMap (fun g => g.2.map (fun t => (g.1, t.1, t.2.2)))).filter
      (fun row => row.1 = p) = [] := by
  induction G with
  | nil => rfl
  | cons g G ih =>
    simp only [List.map_cons, List.mem_cons] at h
    push_neg at h
    rw [List.flatMap_cons, List.filter_append, ih h.2, List.append_nil]
    rw [List.filter_eq_nil_iff]
    intro row hrow
    rcases List.mem_map.mp hrow with ⟨t, _, hrt⟩
    subst hrt
    simpa using Ne.symm h.1

theorem flatMap_rows_filter
    (G : List (String × List (String × String × String))) (p : String)
    (items : List (String × String × String))
    (hnd : (G.map Prod.fst).Nodup) (hmem : (p, items) ∈ G) :
    (G.flatMap (fun g => g.2.map (fun t => (g.1, t.1, t.2.2)))).filter
      (fun row => row.1 = p) = items.map (fun t => (p, t.1, t.2.2)) := by
  induction G with
  | nil => simp at hmem
  | cons g G ih =>
    simp only [List.map_cons, List.nodup_cons] at hnd
    rcases List.mem_cons.mp hmem with h1 | h2
    · subst h1
      rw [List.flatMap_cons, List.filter_append,
        flatMap_rows_filter_nil G p hnd.1, List.append_nil]
      rw [List.filter_eq_self]
      intro row hrow
      rcases List.mem_map.mp hrow with ⟨t, _, hrt⟩
      subst hrt
      simp
    · have hne : g.1 ≠ p := by
        intro he
        exact hnd.1 (he ▸ List.mem_map.mpr ⟨(p, items), h2, rfl⟩)
      rw [List.flatMap_cons, List.filter_append, ih hnd.2 h2]
      have hhead : (g.2.map (fun t => (g.1, t.1, t.2.2))).filter
          (fun row => row.1 = p) = [] := by
        rw [List.filter_eq_nil_iff]
        intro row hrow
        rcases List.mem_map.mp hrow with ⟨t, _, hrt⟩
        subst hrt
        simpa using hne
      rw [hhead, List.nil_append]

/-- Claim C6 counterexample: inside one conflict group the rows are
NOT ordered by location name.  Scanning `x.swift` first in `current`,
then in `backup` (the `LOCATIONS` iteration order) with different
hashes produces the rows `(x.swift, current, h1), (x.swift, backup,
h2)` in that order, although `"backup" < "current"`: the code emits
`for loc, _, sha in entries` in stored scan order and never sorts a
group by location. -/
theorem conflicts_rows_within_group_unsorted :
    write_conflicts_rows (build_conflict_groups
        [FileRecord.mk "x.swift" "current" "/c/x.swift" "h1",
         FileRecord.mk "x.swift" "backup" "/b/x.swift" "h2"])
      = [("x.swift", "current", "h1"), ("x.swift", "backup", "h2")]
    ∧ "backup".data < "current".data := by
  constructor
  · rfl
  · decide

/-- Claim C6 amended: the written reports are deterministically
sorted — duplicate-group rows in descending order of group size and
conflict rows in ascending order of relative path — but within each
conflict group the rows appear in the stored scan (insertion) order of
the contributing records, not sorted by location name. -/
theorem report_rows_sorted
    (groups conflicts : List (String × List (String × String × String)))
    (p : String) (items : List (String × String × String))
    (hnd : (conflicts.map Prod.fst).Nodup)
    (hp : alookup conflicts p = some items) :
    (write_duplicates_rows groups).Pairwise (fun a b => b.2.1 ≤ a.2.1)
    ∧ (write_conflicts_rows conflicts).Pairwise (fun a b => a.1 ≤ b.1)
    ∧ (write_conflicts_rows conflicts).filter (fun row => row.1 = p)
      = items.map (fun t => (p, t.1, t.2.2)) := by
  refine ⟨?_, ?_, ?_⟩
  · haveI htot : IsTotal (String × List (String × String × String))
        (fun a b => b.2.length ≤ a.2.length) :=
      ⟨fun a b => Nat.le_total b.2.length a.2.length⟩
    haveI htrans : IsTrans (String × List (String × String × String))
        (fun a b => b.2.length ≤ a.2.length) :=
      ⟨fun _ _ _ hab hbc => le_trans hbc hab⟩
    have hs := List.sorted_insertionSort
      (fun (a b : String × List (String × String × String)) =>
        b.2.length ≤ a.2.length) groups
    exact List.Pairwise.map _ (fun a b hab => hab) hs
  · haveI htot : IsTotal (String × List (String × String × String))
        (fun a b => a.1 ≤ b.1) := ⟨fun a b => le_total a.1 b.1⟩
    haveI htrans : IsTrans (String × List (String × String × String))
        (fun a b => a.1 ≤ b.1) := ⟨fun _ _ _ hab hbc => le_trans hab hbc⟩
    have hs := List.sorted_insertionSort
      (fun (a b : String × List (String × String × String)) =>
        a.1 ≤ b.1) conflicts
    rw [write_conflicts_rows]
    rw [List.pairwise_flatMap]
    constructor
    · intro g _
      rw [List.pairwise_map]
      exact pairwise_of_const (fun t1 t2 => le_refl g.1) g.2
    · refine hs.imp ?_
      intro a b hab x hx y hy
      rcases List.mem_map.mp hx with ⟨t1, _, ht1⟩
      rcases List.mem_map.mp hy with ⟨t2, _, ht2⟩
      subst ht1
      subst ht2
      exact hab
  · have hmem : (p, items) ∈ conflicts := mem_of_alookup_eq_some hp
    have hperm := List.perm_insertionSort
      (fun (a b : String × List (String × String × String)) =>
        a.1 ≤ b.1) conflicts
    have hmem2 : (p, items) ∈ List.insertionSort
        (fun (a b : String × List (String × String × String)) =>
          a.1 ≤ b.1) conflicts := hperm.mem_iff.mpr hmem
    have hnd2 : ((List.insertionSort
        (fun (a b : String × List (String × String × String)) =>
          a.1 ≤ b.1) conflicts).map Prod.fst).Nodup :=
      ((hperm.map Prod.fst).nodup_iff).mpr hnd
    exact flatMap_rows_filter _ p items hnd2 hmem2

/-- Claim C6 amended witness: one duplicate group and one conflict
group with two locations in scan order. -/
theorem report_rows_sorted_witness :
    (write_duplicates_rows
        [("h1", [("x.swift", "current", "/c/x.swift")])]).Pairwise
      (fun a b => b.2.1 ≤ a.2.1)
    ∧ (write_conflicts_rows
        [("x.swift", [("current", "/c/x.swift", "h1"),
          ("backup", "/b/x.swift", "h2")])]).Pairwise
      (fun a b => a.1 ≤ b.1)
    ∧ (write_conflicts_rows
        [("x.swift", [("current", "/c/x.swift", "h1"),
          ("backup", "/b/x.swift", "h2")])]).filter
        (fun row => row.1 = "x.swift")
      = [("current", "/c/x.swift", "h1"),
          ("backup", "/b/x.swift", "h2")].map (fun t => ("x.swift", t.1, t.2.2)) :=
  report_rows_sorted [("h1", [("x.swift", "current", "/c/x.swift")])]
    [("x.swift", [("current", "/c/x.swift", "h1"),
      ("backup", "/b/x.swift", "h2")])]
    "x.swift"
    [("current", "/c/x.swift", "h1"), ("backup", "/b/x.swift", "h2")]
    (by decide) rfl

/-! ## Snapshot recovery (`extract_files.py`, `extract_file.py`)

A parsed JSON snapshot (`json.loads` result).  Numbers are modelled as
integers — the snapshot offsets are integers.  A caught Python
exception is modelled as `Option.none` at the point where the script
catches it. -/

inductive Json where
  | str (s : String)
  | num (n : Int)
  | bool (b : Bool)
  | null
  | arr (xs : List Json)
  | obj (fields : List (String × Json))
deriving Repr

mutual

/-- Python `==` on parsed JSON values: numeric equality identifies
`bool` with `int`; mismatched types are unequal, never an error.
(Python dict equality ignores key order; the snapshot objects the
claims touch are never compared as dict values, so the order-respecting
version suffices here.) -/
def pyEq : Json → Json → Bool
  | .str a, .str b => a = b
  | .num a, .num b => a = b
  | .num a, .bool b => a = (if b then 1 else 0)
  | .bool a, .num b => (if a then (1 : Int) else 0) = b
  | .bool a, .bool b => a = b
  | .null, .null => true
  | .arr xs, .arr ys => pyEqList xs ys
  | .obj fs, .obj gs => pyEqFields fs gs
  | _, _ => false

def pyEqList : List Json → List Json → Bool
  | [], [] => true
  | x :: xs, y :: ys => pyEq x y && pyEqList xs ys
  | _, _ => false

def pyEqFields : List (String × Json) → List (String × Json) → Bool
  | [], [] => true
  | (k, v) :: fs, (k2, v2) :: gs => k = k2 && pyEq v v2 && pyEqFields fs gs
  | _, _ => false

end

mutual

/-- Python `<` on parsed JSON values as used by `sorted`: numbers
(and bools, which are ints) compare numerically, strings compare by
code point, lists compare lexicographically; any other pairing raises
`TypeError`, modelled as `none`. -/
def pyLt : Json → Json → Option Bool
  | .num a, .num b => some (decide (a < b))
  | .num a, .bool b => some (decide (a < (if b then 1 else 0)))
  | .bool a, .num b => some (decide ((if a then (1 : Int) else 0) < b))
  | .bool a, .bool b => some (decide ((if a then (1 : Int) else 0) < (if b then 1 else 0)))
  | .str a, .str b => some (decide (a.data < b.data))
  | .arr xs, .arr ys => pyLtList xs ys
  | _, _ => none

def pyLtList : List Json → List Json → Option Bool
  | [], [] => some false
  | [], _ :: _ => some true
  | _ :: _, [] => some false
  | x :: xs, y :: ys => if pyEq x y then pyLtList xs ys else pyLt x y

end

/-- The sort key of one chunk:
`lambda x: x.get("range", {}).get("start", 0)`.  A missing `"range"`
or `"start"` yields the default `0`; a chunk that is not a dict, or a
`"range"` value that is not a dict, has no `.get` and raises
`AttributeError`, modelled as `none`. -/
def chunkSortKey : Json → Option Json
  | .obj fields =>
    match alookup fields "range" with
    | none => some (.num 0)
    | some (.obj rfields) =>
      match alookup rfields "start" with
      | none => some (.num 0)
      | some v => some v
    | some _ => none
  | _ => none

/-- The sort keys of all chunks (`sorted` computes the key of every
element up front, in list order; any failure propagates). -/
def keysOf : List Json → Option (List Json)
  | [] => some []
  | c :: cs =>
    match chunkSortKey c, keysOf cs with
    | some k, some ks => some (k :: ks)
    | _, _ => none

/-- `try: chunks = sorted(chunks, key=...) except: pass` — the chunks
sorted stably and ascending by key, falling back to the original
order when computing a key raises or the keys are not mutually
comparable (CPython raises at the first failing comparison its sort
happens to perform; requiring all pairs comparable is the faithful
boundary for the homogeneous keys that occur here, and no claim
depends on a heterogeneous-but-lucky ordering). -/
def sortedChunks (chunks : List Json) : List Json :=
  match keysOf chunks with
  | none => chunks
  | some keys =>
    if keys.all (fun k => keys.all (fun k2 => (pyLt k k2).isSome)) then
      (List.insertionSort (fun a b => ¬ pyLt b.2 a.2 = some true)
        (chunks.zip keys)).map Prod.fst
    else chunks

/-- Auxiliary: does `l` contain `pat` as a contiguous sub-list
(Python `pat in s` for strings). -/
def listContainsSub {α : Type} [DecidableEq α] : List α → List α → Bool
  | l, pat =>
    match l with
    | [] => pat.isEmpty
    | _ :: t => listStartsWith l pat || listContainsSub t pat

/-- One iteration of `for chunk in chunks: if "chunk" in chunk:
swift_code += chunk["chunk"]`.  A dict without the key is skipped; a
dict whose `"chunk"` value is not a string makes `+=` raise; `in` on a
string is a substring test and on a list a membership test (indexing
with a string then raises); `in` on any other value raises at once.
`none` models the raised exception (caught further out). -/
def extractChunk (acc : String) : Json → Option String
  | .obj fields =>
    match alookup fields "chunk" with
    | none => some acc
    | some (.str s) => some (acc ++ s)
    | some _ => none
  | .str s => if listContainsSub s.data "chunk".data then none else some acc
  | .arr xs => if xs.any (fun x => pyEq x (.str "chunk")) then none else some acc
  | _ => none

/-- The whole extraction loop, accumulating `swift_code`. -/
def extractAll : String → List Json → Option String
  | acc, [] => some acc
  | acc, c :: cs =>
    match extractChunk acc c with
    | some acc2 => extractAll acc2 cs
    | none => none

/-- `extract_swift_from_json` from `extract_files.py`, as a function of
the parse result of the backup file (`none` = `json.loads` raised, or
reading raised).  A dict with a `documentChunks` list returns the
joined chunk payloads (or `None` if the loop raised); a dict without
one is not a `str`, so the function returns `None`; a bare JSON string
is returned verbatim; anything else returns `None`. -/
def extract_swift_from_json : Option Json → Option String
  | none => none
  | some (.obj fields) =>
    match alookup fields "documentChunks" with
    | some (.arr chunks) => extractAll "" (sortedChunks chunks)
    | _ => none
  | some (.str s) => some s
  | some _ => none

mutual

/-- Python `repr` of a parsed JSON value, as `str()` produces for
containers (quote-escaping inside strings is not reproduced; no claim
evaluates `str()` on a container). -/
def pyRepr : Json → String
  | .str s => "'" ++ s ++ "'"
  | .num n => toString n
  | .bool b => if b then "True" else "False"
  | .null => "None"
  | .arr xs => "[" ++ pyReprList xs ++ "]"
  | .obj fs => "\x7b" ++ pyReprFields fs ++ "\x7d"

def pyReprList : List Json → String
  | [] => ""
  | [x] => pyRepr x
  | x :: y :: xs => pyRepr x ++ ", " ++ pyReprList (y :: xs)

def pyReprFields : List (String × Json) → String
  | [] => ""
  | [(k, v)] => "'" ++ k ++ "': " ++ pyRepr v
  | (k, v) :: f :: fs => "'" ++ k ++ "': " ++ pyRepr v ++ ", " ++ pyReprFields (f :: fs)

end

/-- Python `str()` of a parsed JSON value: a string is itself, anything
else its `repr`. -/
def pyStr : Json → String
  | .str s => s
  | .num n => pyRepr (.num n)
  | .bool b => pyRepr (.bool b)
  | .null => pyRepr .null
  | .arr xs => pyRepr (.arr xs)
  | .obj fs => pyRepr (.obj fs)

/-- The recovery logic of `extract_file.py` (module body, the
single-file SplashScreen script) as a function of the raw file text
and its parse result (`none` = `json.JSONDecodeError`).  On a parsed
dict with a `documentChunks` list, the chunk loop runs (an exception
inside it reaches the outermost `except` and nothing is written —
`none`); a dict whose `documentChunks` is not a list leaves
`swift_code = ""`; any other parsed value is written as `str(data)`.
On a decode error, raw data that both starts and ends with a double
quote is fed to `json.loads` again — which fails again, so nothing is
written — while any other raw data is written out unchanged as the
fallback. -/
def splash_recover (raw : String) (parsed : Option Json) : Option String :=
  match parsed with
  | some (.obj fields) =>
    match alookup fields "documentChunks" with
    | some (.arr chunks) => extractAll "" (sortedChunks chunks)
    | some _ => some ""
    | none => some (pyStr (.obj fields))
  | some d => some (pyStr d)
  | none =>
    if strStartsWith raw "\"" && strEndsWith raw "\"" then none
    else some raw

/-- A chunk in the shape the snapshot format documents: a dict whose
`"range"` (if present) is a dict with an integer `"start"` (if
present), and whose `"chunk"` payload (if present) is a string. -/
def chunkWF (c : Json) : Bool :=
  match c with
  | .obj fields =>
    (match alookup fields "range" with
     | none => true
     | some (.obj rfields) =>
       (match alookup rfields "start" with
        | none => true
        | some (.num _) => true
        | some _ => false)
     | some _ => false)
    &&
    (match alookup fields "chunk" with
     | none => true
     | some (.str _) => true
     | some _ => false)
  | _ => false

/-- The effective sort key of a well-formed chunk: its
`range.start`, with the `.get` defaults collapsing a missing range or
start to `0`. -/
def effStart (c : Json) : Int :=
  match c with
  | .obj fields =>
    match alookup fields "range" with
    | some (.obj rfields) =>
      match alookup rfields "start" with
      | some (.num n) => n
      | _ => 0
    | _ => 0
  | _ => 0

/-- The payload a chunk contributes: its `"chunk"` string if the key
is present (on well-formed chunks, exactly the dicts with the key). -/
def chunkPayload (c : Json) : Option String :=
  match c with
  | .obj fields =>
    match alookup fields "chunk" with
    | some (.str s) => some s
    | _ => none
  | _ => none

/-- The accumulated `swift_code`: concatenation in order. -/
def joinStr : List String → String
  | [] => ""
  | s :: rest => s ++ joinStr rest

theorem chunkSortKey_of_wf {c : Json} (h : chunkWF c = true) :
    chunkSortKey c = some (.num (effStart c)) := by
  cases c with
  | obj fields =>
    rw [chunkWF, Bool.and_eq_true] at h
    rw [chunkSortKey, effStart]
    cases hr : alookup fields "range" with
    | none => rfl
    | some v =>
      cases v with
      | obj rfields =>
        dsimp only
        cases hs : alookup rfields "start" with
        | none => rfl
        | some w =>
          cases w with
          | num n => rfl
          | str s => simp_all
          | bool b => simp_all
          | null => simp_all
          | arr xs => simp_all
          | obj gs => simp_all
      | str s => simp_all
      | num n => simp_all
      | bool b => simp_all
      | null => simp_all
      | arr xs => simp_all
  | str s => simp [chunkWF] at h
  | num n => simp [chunkWF] at h
  | bool b => simp [chunkWF] at h
  | null => simp [chunkWF] at h
  | arr xs => simp [chunkWF] at h

theorem keysOf_of_wf {chunks : List Json}
    (h : ∀ c ∈ chunks, chunkWF c = true) :
    keysOf chunks = some (chunks.map (fun c => Json.num (effStart c))) := by
  induction chunks with
  | nil => rfl
  | cons c cs ih =>
    rw [keysOf, chunkSortKey_of_wf (h c (List.mem_cons_self c cs)),
      ih (fun d hd => h d (List.mem_cons_of_mem c hd))]
    rfl

theorem extractAll_of_wf {l : List Json}
    (h : ∀ c ∈ l, chunkWF c = true) : ∀ acc : String,
    extractAll acc l = some (acc ++ joinStr (l.filterMap chunkPayload)) := by
  induction l with
  | nil =>
    intro acc
    simp [extractAll, joinStr]
  | cons c cs ih =>
    intro acc
    have hc := h c (List.mem_cons_self c cs)
    have hrest := fun d hd => h d (List.mem_cons_of_mem c hd)
    cases c with
    | obj fields =>
      rw [chunkWF, Bool.and_eq_true] at hc
      rw [extractAll, extractChunk, List.filterMap_cons, chunkPayload]
      cases hk : alookup fields "chunk" with
      | none =>
        dsimp only
        exact ih hrest acc
      | some v =>
        cases v with
        | str s =>
          dsimp only
          rw [ih hrest (acc ++ s), joinStr, String.append_assoc]
        | num n => simp_all
        | bool b => simp_all
        | null => simp_all
        | arr xs => simp_all
        | obj gs => simp_all
    | str s => simp [chunkWF] at hc
    | num n => simp [chunkWF] at hc
    | bool b => simp [chunkWF] at hc
    | null => simp [chunkWF] at hc
    | arr xs => simp [chunkWF] at hc

theorem orderedInsert_map {α β : Type} (r : β → β → Prop) [DecidableRel r]
    (s : α → α → Prop) [DecidableRel s] (f : α → β)
    (hrs : ∀ a b, r (f a) (f b) ↔ s a b) (a : α) (l : List α) :
    List.orderedInsert r (f a) (l.map f) = (List.orderedInsert s a l).map f := by
  induction l with
  | nil => simp [List.orderedInsert]
  | cons b l ih =>
    rw [List.map_cons, List.orderedInsert, List.orderedInsert]
    by_cases hs : s a b
    · rw [if_pos ((hrs a b).mpr hs), if_pos hs, List.map_cons, List.map_cons]
    · rw [if_neg (fun hr => hs ((hrs a b).mp hr)), if_neg hs, List.map_cons, ih]

theorem insertionSort_map {α β : Type} (r : β → β → Prop) [DecidableRel r]
    (s : α → α → Prop) [DecidableRel s] (f : α → β)
    (hrs : ∀ a b, r (f a) (f b) ↔ s a b) (l : List α) :
    List.insertionSort r (l.map f) = (List.insertionSort s l).map f := by
  induction l with
  | nil => rfl
  | cons a l ih =>
    rw [List.map_cons, List.insertionSort, List.insertionSort, ih,
      orderedInsert_map r s f hrs]

theorem zip_self_map {α β : Type} (g : α → β) (l : List α) :
    l.zip (l.map g) = l.map (fun a => (a, g a)) := by
  induction l with
  | nil => rfl
  | cons a l ih => rw [List.map_cons, List.zip_cons_cons, ih, List.map_cons]

theorem sortedChunks_of_wf {chunks : List Json}
    (h : ∀ c ∈ chunks, chunkWF c = true) :
    sortedChunks chunks
      = List.insertionSort (fun c d => effStart c ≤ effStart d) chunks := by
  rw [sortedChunks, keysOf_of_wf h]
  dsimp only
  have hcomp : (chunks.map (fun c => Json.num (effStart c))).all (fun k =>
      (chunks.map (fun c => Json.num (effStart c))).all
        (fun k2 => (pyLt k k2).isSome)) = true := by
    rw [List.all_eq_true]
    intro k hk
    rw [List.all_eq_true]
    intro k2 hk2
    rcases List.mem_map.mp hk with ⟨c, _, rfl⟩
    rcases List.mem_map.mp hk2 with ⟨d, _, rfl⟩
    simp [pyLt]
  rw [if_pos hcomp, zip_self_map,
    insertionSort_map
      (fun (a b : Json × Json) => ¬ pyLt b.2 a.2 = some true)
      (fun c d => effStart c ≤ effStart d)
      (fun c => (c, Json.num (effStart c)))
      (fun c d => by simp [pyLt, Int.not_lt]) chunks,
    List.map_map]
  have hid : (Prod.fst ∘ fun c => (c, Json.num (effStart c))) = id := rfl
  rw [hid, List.map_id]

theorem empty_append_str (s : String) : "" ++ s = s := by
  cases s
  rfl

/-- Shared evaluation of `extract_swift_from_json` on a chunked
snapshot of well-formed chunks: the sorted chunks' payloads joined. -/
theorem extract_snapshot_eq {chunks : List Json}
    (h : ∀ c ∈ chunks, chunkWF c = true) :
    extract_swift_from_json (some (.obj [("documentChunks", .arr chunks)]))
      = some (joinStr ((sortedChunks chunks).filterMap chunkPayload)) := by
  have hperm : (sortedChunks chunks).Perm chunks := by
    rw [sortedChunks_of_wf h]
    exact List.perm_insertionSort _ chunks
  have hwf2 : ∀ c ∈ sortedChunks chunks, chunkWF c = true :=
    fun c hc => h c (hperm.mem_iff.mp hc)
  have halo : alookup [("documentChunks", Json.arr chunks)] "documentChunks"
      = some (Json.arr chunks) := by simp [alookup]
  rw [extract_swift_from_json, halo]
  dsimp only
  rw [extractAll_of_wf hwf2 "", empty_append_str]

/-- Claim C4 counterexample: a chunk that lacks offset metadata does
NOT make the code fall back to the original chunk order.  With chunks
`[{range:{start:5},chunk:"A"}, {chunk:"B"}]` the second chunk has no
`range`, so its key defaults to `0` via `.get("range",{}).get
("start",0)` and it is sorted to the front: the code reconstructs
"BA", not the original-order "AB" the claim prescribes. -/
theorem snapshot_missing_offset_reordered :
    extract_swift_from_json (some (.obj [("documentChunks", .arr
        [.obj [("range", .obj [("start", .num 5)]), ("chunk", .str "A")],
         .obj [("chunk", .str "B")]])]))
      = some "BA"
    ∧ ("BA" : String) ≠ "AB" := by
  constructor
  · rfl
  · decide

/-- Claim C4 amended: reconstruction concatenates the chunk payloads
after sorting the chunks ascending by the start of their offset range,
where a chunk (dict) lacking range or start metadata is assigned the
default start `0` rather than triggering a fallback; the original
order is kept only when computing a sort key raises (a non-dict chunk
or non-dict range) or the keys are incomparable; the function is total
and never raises.  The sorted chunk list is a permutation of the input
sorted by effective start. -/
theorem snapshot_reconstruction (chunks : List Json)
    (hwf : chunks.all chunkWF = true) :
    extract_swift_from_json (some (.obj [("documentChunks", .arr chunks)]))
      = some (joinStr ((sortedChunks chunks).filterMap chunkPayload))
    ∧ (sortedChunks chunks).Perm chunks
    ∧ (sortedChunks chunks).Pairwise (fun c d => effStart c ≤ effStart d) := by
  have h : ∀ c ∈ chunks, chunkWF c = true := List.all_eq_true.mp hwf
  refine ⟨extract_snapshot_eq h, ?_, ?_⟩
  · rw [sortedChunks_of_wf h]
    exact List.perm_insertionSort _ chunks
  · rw [sortedChunks_of_wf h]
    haveI : IsTotal Json (fun c d => effStart c ≤ effStart d) :=
      ⟨fun a b => Int.le_total _ _⟩
    haveI : IsTrans Json (fun c d => effStart c ≤ effStart d) :=
      ⟨fun _ _ _ hab hbc => le_trans hab hbc⟩
    exact List.sorted_insertionSort _ chunks

/-- Claim C4 amended witness: the spec's own example —
`[{range:{start:5},chunk:"world"},{range:{start:0},chunk:"hello "}]`
reconstructs to `"hello world"`. -/
theorem snapshot_reconstruction_witness :
    (extract_swift_from_json (some (.obj [("documentChunks", .arr
        [.obj [("range", .obj [("start", .num 5)]), ("chunk", .str "world")],
         .obj [("range", .obj [("start", .num 0)]), ("chunk", .str "hello ")]])]))
      = some (joinStr ((sortedChunks
        [.obj [("range", .obj [("start", .num 5)]), ("chunk", .str "world")],
         .obj [("range", .obj [("start", .num 0)]), ("chunk", .str "hello ")]]).filterMap
          chunkPayload))
    ∧ (sortedChunks
        [.obj [("range", .obj [("start", .num 5)]), ("chunk", .str "world")],
         .obj [("range", .obj [("start", .num 0)]), ("chunk", .str "hello ")]]).Perm
        [.obj [("range", .obj [("start", .num 5)]), ("chunk", .str "world")],
         .obj [("range", .obj [("start", .num 0)]), ("chunk", .str "hello ")]]
    ∧ (sortedChunks
        [.obj [("range", .obj [("start", .num 5)]), ("chunk", .str "world")],
         .obj [("range", .obj [("start", .num 0)]), ("chunk", .str "hello ")]]).Pairwise
        (fun c d => effStart c ≤ effStart d))
    ∧ extract_swift_from_json (some (.obj [("documentChunks", .arr
        [.obj [("range", .obj [("start", .num 5)]), ("chunk", .str "world")],
         .obj [("range", .obj [("start", .num 0)]), ("chunk", .str "hello ")]])]))
      = some "hello world" :=
  ⟨snapshot_reconstruction
    [.obj [("range", .obj [("start", .num 5)]), ("chunk", .str "world")],
     .obj [("range", .obj [("start", .num 0)]), ("chunk", .str "hello ")]]
    (by decide), rfl⟩

/-- A chunk element that is a dict without the `"chunk"` payload key. -/
def isObjWithoutChunkKey (c : Json) : Bool :=
  match c with
  | .obj fields => (alookup fields "chunk").isNone
  | _ => false

/-- Claim C10: a chunk element (dict) that lacks the `"chunk"` payload
key contributes nothing to the output — the loop body is skipped, no
exception and no placeholder — so the reconstructed text is the
concatenation of the payloads of exactly those chunks that have the
key (`chunkPayload` is `some` exactly on dicts carrying the key, and
`filterMap chunkPayload` keeps exactly those). -/
theorem chunk_without_payload_skipped (c : Json) (cs : List Json)
    (acc : String) (chunks : List Json)
    (hc : isObjWithoutChunkKey c = true)
    (hwf : chunks.all chunkWF = true) :
    extractAll acc (c :: cs) = extractAll acc cs
    ∧ extract_swift_from_json (some (.obj [("documentChunks", .arr chunks)]))
      = some (joinStr ((sortedChunks chunks).filterMap chunkPayload)) := by
  constructor
  · cases c with
    | obj fields =>
      rw [isObjWithoutChunkKey] at hc
      rw [extractAll, extractChunk]
      cases hk : alookup fields "chunk" with
      | none => rfl
      | some v => simp [hk] at hc
    | str s => simp [isObjWithoutChunkKey] at hc
    | num n => simp [isObjWithoutChunkKey] at hc
    | bool b => simp [isObjWithoutChunkKey] at hc
    | null => simp [isObjWithoutChunkKey] at hc
    | arr xs => simp [isObjWithoutChunkKey] at hc
  · exact extract_snapshot_eq (List.all_eq_true.mp hwf)

/-- Claim C10 witness: a keyless chunk between two payload chunks is
skipped; the snapshot with chunks `a`, `(range-only)`, `b` at starts
0, 1, 2 reconstructs to `"ab"`. -/
theorem chunk_without_payload_skipped_witness :
    (extractAll "x" (.obj [("range", .obj [("start", .num 1)])] ::
        [.obj [("chunk", .str "b")]])
      = extractAll "x" [.obj [("chunk", .str "b")]]
    ∧ extract_swift_from_json (some (.obj [("documentChunks", .arr
        [.obj [("chunk", .str "a")],
         .obj [("range", .obj [("start", .num 1)])],
         .obj [("range", .obj [("start", .num 2)]), ("chunk", .str "b")]])]))
      = some (joinStr ((sortedChunks
        [.obj [("chunk", .str "a")],
         .obj [("range", .obj [("start", .num 1)])],
         .obj [("range", .obj [("start", .num 2)]), ("chunk", .str "b")]]).filterMap
          chunkPayload)))
    ∧ extract_swift_from_json (some (.obj [("documentChunks", .arr
        [.obj [("chunk", .str "a")],
         .obj [("range", .obj [("start", .num 1)])],
         .obj [("range", .obj [("start", .num 2)]), ("chunk", .str "b")]])]))
      = some "ab" :=
  ⟨chunk_without_payload_skipped
    (.obj [("range", .obj [("start", .num 1)])])
    [.obj [("chunk", .str "b")]] "x"
    [.obj [("chunk", .str "a")],
     .obj [("range", .obj [("start", .num 1)])],
     .obj [("range", .obj [("start", .num 2)]), ("chunk", .str "b")]]
    (by decide) (by decide), rfl⟩

/-- Claim C5 counterexample: recovery is not total in the claimed
sense.  On input that cannot be parsed as JSON at all,
`extract_swift_from_json` returns `None` (so the caller writes
nothing) instead of returning the raw bytes; and the single-file
script of `extract_file.py`, on the undecodable quote-wrapped raw text
`"a" "b"` (`json.loads` fails on it: trailing data after the first
string), retries `json.loads` on the same text, fails again, and
writes nothing — only non-quote-wrapped undecodable input reaches the
raw-bytes fallback. -/
theorem snapshot_recovery_not_total :
    extract_swift_from_json none = none
    ∧ splash_recover "\"a\" \"b\"" none = none := by
  constructor
  · rfl
  · rfl

/-- Claim C5 amended: recovery never raises (both recovery routines
are total functions returning an optional result), and a snapshot
parsed as a bare string is recovered verbatim; but totality of output
fails: `extract_swift_from_json` yields `None` on unparseable input,
and `extract_file.py` falls back to the raw bytes only when the
undecodable raw text is not wrapped in double quotes. -/
theorem snapshot_recovery_fallback (s raw : String)
    (h : (strStartsWith raw "\"" && strEndsWith raw "\"") = false) :
    extract_swift_from_json (some (.str s)) = some s
    ∧ splash_recover raw none = some raw := by
  refine ⟨rfl, ?_⟩
  rw [splash_recover]
  simp [h]

/-- Claim C5 amended witness: a bare-string snapshot and a plain
non-JSON raw text. -/
theorem snapshot_recovery_fallback_witness :
    extract_swift_from_json (some (.str "let x = 1")) = some "let x = 1"
    ∧ splash_recover "not json" none = some "not json" :=
  snapshot_recovery_fallback "let x = 1" "not json" (by decide)
